import Mathlib

/-!
Verification of the module-resolution core of the `cts` TypeScript runtime.

The definitions below are a shallow embedding of the TypeScript sources:
`src/utils.ts` (path helpers, the semver range matcher, the tar reader),
`src/resolver/index.ts` (dispatcher), `src/resolver/http.ts`,
`src/resolver/jsr.ts`, and `src/resolver/npm.ts`.

JavaScript strings are modelled as `List Char` (`Str`); the inputs of
interest are ASCII, where JavaScript's UTF-16 code-unit indices agree with
character indices.  JavaScript numbers holding 32-bit values are modelled
with `Int` plus explicit wrapping; `NaN` is modelled with `Option Int`
(`none` = NaN) where it can arise.  File-system and network effects are
modelled by explicit state records and oracle functions passed as
parameters; synchronous fetches are oracle calls recorded in an event
trace.  All definitions use structural recursion (with an explicit
iteration bound where the source iterates on a position), so they evaluate
on concrete inputs.
-/

set_option maxRecDepth 100000

namespace Cts

/-- JavaScript strings, as lists of UTF-16-ish code units (ASCII here). -/
abbrev Str := List Char

/-- Embed a Lean string literal as a JS string value. -/
def str (s : String) : Str := s.data

instance {ε α : Type} [DecidableEq ε] [DecidableEq α] : DecidableEq (Except ε α)
  | .error e₁, .error e₂ =>
    if h : e₁ = e₂ then .isTrue (h ▸ rfl)
    else .isFalse (fun hh => h (by cases hh; rfl))
  | .error _, .ok _ => .isFalse (fun h => Except.noConfusion h)
  | .ok _, .error _ => .isFalse (fun h => Except.noConfusion h)
  | .ok a₁, .ok a₂ =>
    if h : a₁ = a₂ then .isTrue (h ▸ rfl)
    else .isFalse (fun hh => h (by cases hh; rfl))

/-! ## Generic JS string-method models -/

/-- JS `String.prototype.startsWith`. -/
def strStartsWith : Str → Str → Bool
  | _, [] => true
  | [], _ :: _ => false
  | a :: as, b :: bs => a == b && strStartsWith as bs

/-- JS `String.prototype.endsWith`. -/
def strEndsWith (s p : Str) : Bool := strStartsWith s.reverse p.reverse

/-- JS `String.prototype.indexOf` for a substring needle (`none` = `-1`). -/
def findSub : Str → Str → Option Nat
  | s, needle =>
    if strStartsWith s needle then some 0
    else match s with
      | [] => none
      | _ :: rest => (findSub rest needle).map (· + 1)

/-- JS `String.prototype.indexOf` for a single character (`none` = `-1`). -/
def strIdxOf (s : Str) (c : Char) : Option Nat := s.indexOf? c

/-- JS `String.prototype.lastIndexOf` for a character (`none` = `-1`). -/
def lastIdxOf (s : Str) (c : Char) : Option Nat :=
  (s.reverse.indexOf? c).map (fun i => s.length - 1 - i)

/-- JS `String.prototype.includes` for a substring needle. -/
def strIncludes (s needle : Str) : Bool := (findSub s needle).isSome

/-- Worker for `strSplitOn`; the bound only limits iterations and is never
reached, since each round consumes at least one character. -/
def strSplitOnAux : Nat → Str → Str → List Str
  | 0, s, _ => [s]
  | bound + 1, s, sep =>
    match findSub s sep with
    | none => [s]
    | some i => s.take i :: strSplitOnAux bound (s.drop (i + sep.length)) sep

/-- JS `String.prototype.split` with a nonempty string separator. -/
def strSplitOn (s sep : Str) : List Str := strSplitOnAux (s.length + 1) s sep

/-- JS `String.prototype.replace(/pat/g, rep)`: replace every occurrence. -/
def strReplaceAll (s pat rep : Str) : Str :=
  List.intercalate rep (strSplitOn s pat)

/-- JS `String.prototype.replace(pat, rep)` with a string pattern: replace
only the first occurrence. -/
def strReplaceFirst (s pat rep : Str) : Str :=
  match strSplitOn s pat with
  | [] => s
  | [x] => x
  | x :: rest => x ++ rep ++ List.intercalate pat rest

/-- JS whitespace accepted by `trim` / skipped by `parseInt` (ASCII part). -/
def isJsWs (c : Char) : Bool :=
  c = ' ' || c = '\t' || c = '\n' || c = '\r' || c = '\x0b' || c = '\x0c'

/-- JS `String.prototype.trim`. -/
def strTrim (s : Str) : Str :=
  ((s.dropWhile isJsWs).reverse.dropWhile isJsWs).reverse

/-- JS `parseInt(s, radix)` for radix ≤ 10: skip whitespace, optional sign,
take leading digits; `none` models `NaN`. -/
def jsParseInt (radix : Nat) (s : Str) : Option Int :=
  let cs := s.dropWhile isJsWs
  let (neg, cs) :=
    match cs with
    | '-' :: rest => (true, rest)
    | '+' :: rest => (false, rest)
    | _ => (false, cs)
  let digits := cs.takeWhile (fun c => '0' ≤ c && c.toNat < 48 + radix)
  if digits.isEmpty then none
  else
    let v : Int := digits.foldl (fun acc c => acc * radix + ((c.toNat : Int) - 48)) 0
    some (if neg then -v else v)

/-- Decimal digits of a natural (worker with an iteration bound that is
never reached). -/
def natDigitsAux : Nat → Nat → Str
  | 0, _ => []
  | bound + 1, n =>
    if n < 10 then [Char.ofNat (48 + n)]
    else natDigitsAux bound (n / 10) ++ [Char.ofNat (48 + n % 10)]

/-- JS `String(n)` for an integer value (used by template interpolation). -/
def intToStr (z : Int) : Str :=
  match z with
  | .ofNat n => natDigitsAux (n + 1) n
  | .negSucc n => '-' :: natDigitsAux (n + 2) (n + 1)

/-! ## utils.ts: path helpers -/

/-- One pass of the `replace(/\/+/g, '/')` in `joinPaths`: collapse every
run of slashes to a single slash. -/
def collapseSlashes : Str → Str
  | [] => []
  | [c] => [c]
  | c :: d :: rest =>
    if c = '/' && d = '/' then collapseSlashes (d :: rest)
    else c :: collapseSlashes (d :: rest)

/-- `utils.ts` `joinPaths`: drop empty segments, join with `/`, collapse
duplicate slashes. -/
def joinPaths (segments : List Str) : Str :=
  collapseSlashes (List.intercalate (str "/") (segments.filter (· ≠ [])))

/-- `utils.ts` `dirname`: backslashes to slashes, cut at the last `/` when
its index is positive, else `"."`. -/
def dirname (path : Str) : Str :=
  let normalized := path.map (fun c => if c = '\\' then '/' else c)
  match lastIdxOf normalized '/' with
  | some i => if i > 0 then normalized.take i else str "."
  | none => str "."

/-- `utils.ts` `getExtension`: from the last `.` when its index is positive. -/
def getExtension (path : Str) : Str :=
  match lastIdxOf path '.' with
  | some i => if i > 0 then path.drop i else []
  | none => []

/-- `utils.ts` `normalizePath`: split on `/`, drop empties and `.`, resolve
`..` against a result stack (kept reversed, as the JS loop's array). -/
def normalizePath (path : Str) : Str :=
  let parts := (strSplitOn path (str "/")).filter (fun p => p ≠ [] && p ≠ str ".")
  let rev := parts.foldl (fun (rev : List Str) part =>
    if part = str ".." then
      match rev with
      | top :: rest =>
        if top ≠ str ".." then rest
        else if ¬ strStartsWith path (str "/") then part :: top :: rest
        else top :: rest
      | [] => if ¬ strStartsWith path (str "/") then [part] else []
    else part :: rev) []
  let normalized := List.intercalate (str "/") rev.reverse
  let normalized :=
    if strStartsWith path (str "/") && ¬ strStartsWith normalized (str "/") then
      '/' :: normalized
    else normalized
  if normalized = [] then str "." else normalized

/-- `utils.ts` `getBasenameFromUrl`: strip query and fragment, take from the
last `/` (inclusive) when its index is positive, else `"index.js"`. -/
def getBasenameFromUrl (url : Str) : Str :=
  let path := (strSplitOn ((strSplitOn url (str "?")).headD []) (str "#")).headD []
  match lastIdxOf path '/' with
  | some i => if i > 0 then path.drop i else str "index.js"
  | none => str "index.js"

/-- `utils.ts` `isAbsolutePath`, with the win32 platform flag explicit. -/
def isAbsolutePath (win32 : Bool) (path : Str) : Bool :=
  strStartsWith path (str "/") ||
    (win32 && match path with
      | a :: b :: c :: _ => a.isAlpha && b = ':' && (c = '/' || c = '\\')
      | _ => false)

/-- Wrap an integer to JavaScript's signed 32-bit range (the `hash & hash`
and `<<` coercions in `hashString`). -/
def wrap32 (z : Int) : Int := (z + 2 ^ 31) % 2 ^ 32 - 2 ^ 31

/-- Base-36 digit characters `0-9a-z`, as in JS `toString(36)`. -/
def base36Digit (n : Nat) : Char :=
  if n < 10 then Char.ofNat (48 + n) else Char.ofNat (97 + (n - 10))

/-- Base-36 rendering of a natural (worker with an unreachable bound). -/
def toBase36Aux : Nat → Nat → Str
  | 0, _ => []
  | bound + 1, n =>
    if n < 36 then [base36Digit n]
    else toBase36Aux bound (n / 36) ++ [base36Digit (n % 36)]

/-- JS `Math.abs(n).toString(36)` for an int32 value. -/
def toBase36 (n : Nat) : Str := toBase36Aux (n + 1) n

/-- `utils.ts` `hashString`: `hash = (hash << 5) - hash + charCode` in int32
arithmetic, then `Math.abs(hash).toString(36)`. -/
def hashString (s : Str) : Str :=
  toBase36 (Int.natAbs (s.foldl
    (fun h c => wrap32 (wrap32 (h * 32) - h + (c.toNat : Int))) 0))

/-- `utils.ts` `SimpleUrl`, parsed fields. -/
structure SimpleUrl where
  protocol : Str
  host : Str
  pathname : Str
  search : Str
  hash : Str
  deriving DecidableEq, Repr

/-- `SimpleUrl`'s constructor; `none` models the `Invalid URL` throw. -/
def simpleUrl? (url : Str) : Option SimpleUrl :=
  let letters := url.takeWhile (fun c => 'a' ≤ c && c ≤ 'z')
  if letters.length = 0 then none
  else if ¬ strStartsWith (url.drop letters.length) (str "://") then none
  else
    let rest0 := url.drop (letters.length + 3)
    let (rest1, hsh) :=
      match strIdxOf rest0 '#' with
      | some i => (rest0.take i, rest0.drop i)
      | none => (rest0, [])
    let (rest2, search) :=
      match strIdxOf rest1 '?' with
      | some i => (rest1.take i, rest1.drop i)
      | none => (rest1, [])
    let (host, pathname) :=
      match strIdxOf rest2 '/' with
      | some i => (rest2.take i, rest2.drop i)
      | none => (rest2, str "/")
    some ⟨letters, host, pathname, search, hsh⟩

/-! ## utils.ts: semver range matcher -/

/-- `compareVersions`' per-part parse: `parseInt(part, 10)`, `NaN` to `0`. -/
def versionParts (v : Str) : List Int :=
  (strSplitOn v (str ".")).map (fun p => (jsParseInt 10 p).getD 0)

/-- Component-wise comparison loop over equal-length part lists (the second
list supplies `0` for missing entries via `headD`). -/
def cmpLists : List Int → List Int → Int
  | [], _ => 0
  | x :: xs, ys =>
    if x > ys.headD 0 then 1
    else if x < ys.headD 0 then -1
    else cmpLists xs ys.tail

/-- The loop of `compareVersions` up to `max(parts1.length, parts2.length)`,
with missing components read as `0`: pad the first list to the second's
length and run the component loop. -/
def cmpParts (a b : List Int) : Int :=
  cmpLists (a ++ List.replicate (b.length - a.length) 0) b

/-- `utils.ts` `compareVersions`. -/
def compareVersions (v1 v2 : Str) : Int :=
  cmpParts (versionParts v1) (versionParts v2)

/-- `NaN`-aware rendering for a possibly-NaN number interpolated into a
version template string. -/
def numStr (o : Option Int) : Str :=
  match o with
  | some n => intToStr n
  | none => str "NaN"

/-- JS `x + 1` where `x` may be `NaN` or `undefined` (`none`). -/
def addOne (o : Option Int) : Option Int := o.map (· + 1)

/-- The component loop of the wildcard branch of `satisfiesVersion`:
pattern components run out first; a missing version component fails any
non-`x` pattern component. -/
def wildcardMatch : List Str → List Str → Bool
  | [], _ => true
  | p :: ps, [] => if p = str "x" then wildcardMatch ps [] else false
  | p :: ps, v :: vs =>
    if p = str "x" then wildcardMatch ps vs
    else if p = v then wildcardMatch ps vs
    else false

/-- `utils.ts` `satisfiesVersion`, branch for branch in source order. -/
def satisfiesVersion (version range : Str) : Bool :=
  if ¬ range.contains '^' && ¬ range.contains '~' && ¬ range.contains '*' &&
      ¬ range.contains 'x' && ¬ range.contains '>' && ¬ range.contains '<' &&
      ¬ range.contains '-' then
    compareVersions version range == 0
  else if strStartsWith range (str "^") then
    let baseVersion := range.drop 1
    let baseParts := (strSplitOn baseVersion (str ".")).map (jsParseInt 10)
    if (baseParts.headD none) = some 0 then
      let maxVersion := str "0." ++ numStr (addOne ((baseParts.get? 1).getD none)) ++ str ".0"
      compareVersions version baseVersion ≥ 0 && compareVersions version maxVersion < 0
    else
      let maxVersion := numStr (addOne ((baseParts.get? 0).getD none)) ++ str ".0.0"
      compareVersions version baseVersion ≥ 0 && compareVersions version maxVersion < 0
  else if strStartsWith range (str "~") then
    let baseVersion := range.drop 1
    let baseParts := (strSplitOn baseVersion (str ".")).map (jsParseInt 10)
    let maxVersion := numStr ((baseParts.get? 0).getD none) ++ str "." ++
      numStr (addOne ((baseParts.get? 1).getD none)) ++ str ".0"
    compareVersions version baseVersion ≥ 0 && compareVersions version maxVersion < 0
  else if range.contains '*' || range.contains 'x' || range.contains 'X' then
    let pattern := strReplaceAll (strReplaceAll range (str "*") (str "x")) (str "X") (str "x")
    wildcardMatch (strSplitOn pattern (str ".")) (strSplitOn version (str "."))
  else if strIncludes range (str " - ") then
    let parts := (strSplitOn range (str " - ")).map strTrim
    let minRange := parts.headD []
    let maxRange := (parts.get? 1).getD []
    compareVersions version minRange ≥ 0 && compareVersions version maxRange ≤ 0
  else if strStartsWith range (str ">=") then
    compareVersions version (range.drop 2) ≥ 0
  else if strStartsWith range (str ">") then
    compareVersions version (range.drop 1) > 0
  else if strStartsWith range (str "<=") then
    compareVersions version (range.drop 2) ≤ 0
  else if strStartsWith range (str "<") then
    compareVersions version (range.drop 1) < 0
  else if strStartsWith range (str "=") then
    compareVersions version (range.drop 1) == 0
  else false

/-- `utils.ts` `matchVersion`. -/
def matchVersion (versions : List Str) (range : Str) : List Str :=
  versions.filter (fun v => satisfiesVersion v range)

/-- The `reduce` callback loop of `matchLatestVersion`: the accumulator is
replaced only by a strictly greater candidate, so ties keep the earlier
element. -/
def latestReduce (m : Str) (ms : List Str) : Str :=
  ms.foldl (fun latest current =>
    if compareVersions current latest > 0 then current else latest) m

/-- `utils.ts` `matchLatestVersion`: `reduce` starting from the first match. -/
def matchLatestVersion (versions : List Str) (range : Str) : Option Str :=
  match matchVersion versions range with
  | [] => none
  | m :: ms => some (latestReduce m ms)

/-! ## utils.ts: tar reader (`unTarGz` after the gzip step)

`unTarGz` first calls the host's `zlib.gunzip`; everything after that is
the pure TAR tape parser modelled here as `parseTar` over the decompressed
byte list.  Bytes are `Nat`s in `0..255`. -/

/-- The `readString(offset, length)` closure: collect chars until a zero
byte, an out-of-range read, or `length` characters. -/
def readStr (bytes : List Nat) (off : Nat) : Nat → Str
  | 0 => []
  | n + 1 =>
    match bytes.get? off with
    | some c => if c = 0 then [] else Char.ofNat c :: readStr bytes (off + 1) n
    | none => []

/-- The `readOctal` closure: read, `trim`, empty string to `0`, else
`parseInt(str, 8)` (`none` = NaN). -/
def readOctal (bytes : List Nat) (off len : Nat) : Option Int :=
  let s := strTrim (readStr bytes off len)
  if s = [] then some 0 else jsParseInt 8 s

/-- The `isZeroBlock` closure: 512 in-range zero bytes (an out-of-range
read makes the check fail, as `undefined !== 0`). -/
def isZeroBlock (bytes : List Nat) (off : Nat) : Bool :=
  (List.range 512).all (fun i =>
    match bytes.get? (off + i) with
    | some 0 => true
    | _ => false)

/-- Entry kinds of `TarFile.type`. -/
inductive TarType where
  | file
  | dir
  | link
  | other
  deriving DecidableEq, Repr

/-- `utils.ts` `TarFile` (`size` is `none` when the size field parsed to
NaN). -/
structure TarFile where
  path : Str
  content : List Nat
  size : Option Int
  type : TarType
  deriving DecidableEq, Repr

/-- The `typeMap` lookup with fallback `'other'`. -/
def tarTypeOf (typeFlag : Str) : TarType :=
  if typeFlag = str "0" then .file
  else if typeFlag = ['\x00'] then .file
  else if typeFlag = str "5" then .dir
  else if typeFlag = str "2" then .link
  else .other

/-- The `while (pos < bytes.length)` loop of `unTarGz`.  The iteration
bound is never reached: every round advances `pos` by at least 512 (or
ends the loop).  A NaN size pushes its entry with empty content and then
ends the loop, as `pos = NaN` fails the loop condition in JS. -/
def parseTarLoop (bytes : List Nat) : Nat → Nat → List TarFile
  | 0, _ => []
  | bound + 1, pos =>
    if pos < bytes.length then
      if isZeroBlock bytes pos &&
          (decide (pos + 512 ≥ bytes.length) || isZeroBlock bytes (pos + 512)) then []
      else
        let name := readStr bytes pos 100
        let size := readOctal bytes (pos + 124) 12
        let typeFlag := readStr bytes (pos + 156) 1
        if name.isEmpty || (match size with | some z => decide (z < 0) | none => false) then
          parseTarLoop bytes bound (pos + 512)
        else
          match size with
          | none => [⟨name, [], none, tarTypeOf typeFlag⟩]
          | some z =>
            let dataStart := pos + 512
            let dataBlocks := (z.toNat + 511) / 512
            let nextPos := dataStart + dataBlocks * 512
            let content := (bytes.drop dataStart).take z.toNat
            ⟨name, content, some z, tarTypeOf typeFlag⟩ ::
              parseTarLoop bytes bound nextPos
    else []

/-- The TAR tape parser of `unTarGz`, applied to the gunzipped bytes. -/
def parseTar (bytes : List Nat) : List TarFile :=
  parseTarLoop bytes (bytes.length + 1) 0

/-! ## Configuration and shared effect plumbing -/

/-- `RuntimeConfig`, restricted to the fields the resolvers read.  Objects
(`pathAliases`, `importMap`) are insertion-ordered entry lists, matching
`Object.entries` iteration order. -/
structure RtConfig where
  cacheDir : Str
  enableHttp : Bool
  enableJsr : Bool
  enableNode : Bool
  silent : Bool
  pathAliases : Option (List (Str × List Str))
  baseUrl : Option Str
  importMap : Option (List (Str × Str))

/-- JS `Map.prototype.set` / object-key write, modelled as a shadowing cons
(`List.lookup` finds the most recent binding). -/
def mapSet {α β : Type} (m : List (α × β)) (k : α) (v : β) : List (α × β) :=
  (k, v) :: m

/-! ## resolver/http.ts -/

/-- Missing from the sources (imported by `resolver/http.ts` from
`utils.ts`, but not defined there).  Modelled from the spec: the HTTP cache
path is "host + hash of the full URL, plus a basename-derived suffix", so
the suffix is the extension of the URL's basename. -/
def getExtensionFromUrl (url : Str) : Str :=
  getExtension (getBasenameFromUrl url)

/-- `HttpResolver.getCachePath`: `cacheDir/http/<host>/<hash><ext>`;
`none` models the `SimpleUrl` constructor throw on a malformed URL. -/
def httpCachePath (cfg : RtConfig) (url : Str) : Option Str :=
  (simpleUrl? url).map (fun parsed =>
    joinPaths [cfg.cacheDir, str "http", parsed.host,
      hashString url ++ getExtensionFromUrl url])

/-- The state an `HttpResolver` touches: the file system (path → content),
the resolver's `urlMap` (cache path → URL), and a trace of performed
fetches (for observing network activity). -/
structure HState where
  files : List (Str × Str)
  urlMap : List (Str × Str)
  fetches : List Str
  deriving DecidableEq

/-- `HttpResolver.resolve(url)`: on a cache hit, record the mapping and
return the cache path; otherwise fetch synchronously (the oracle returns
status and body), require status 200, persist the body, record the
mapping, and return the URL.  Any failure is wrapped in the
`Failed to resolve HTTP module` error. -/
def httpResolve (cfg : RtConfig) (net : Str → Nat × Str) (s : HState)
    (url : Str) : Except Str (Str × HState) :=
  let inner : Except Str (Str × HState) :=
    match httpCachePath cfg url with
    | none => .error (str "Invalid URL: " ++ url)
    | some cachedPath =>
      if (s.files.lookup cachedPath).isSome then
        .ok (cachedPath, { s with urlMap := mapSet s.urlMap cachedPath url })
      else
        let (status, body) := net url
        let s := { s with fetches := s.fetches ++ [url] }
        if status ≠ 200 then
          .error (str "Failed to fetch " ++ url ++ str ": HTTP " ++ intToStr status)
        else
          .ok (url, { s with
            files := mapSet s.files cachedPath body,
            urlMap := mapSet s.urlMap cachedPath url })
  match inner with
  | .ok r => .ok r
  | .error e => .error (str "Failed to resolve HTTP module " ++ url ++ str ": " ++ e)

/-! ## resolver/index.ts (dispatcher) -/

/-- `ModuleResolver.applyImportMap`: exact match first (skipped when the
mapped value is falsy, i.e. empty), else the first entry in iteration
order whose key ends in `/` and is a prefix of the name. -/
def applyImportMap (cfg : RtConfig) (name : Str) : Str :=
  match cfg.importMap with
  | none => name
  | some imap =>
    let exact := imap.lookup name
    let viaExact :=
      match exact with
      | some v => if v ≠ [] then some v else none
      | none => none
    match viaExact with
    | some v => v
    | none =>
      match imap.find? (fun kv => strEndsWith kv.1 (str "/") && strStartsWith name kv.1) with
      | some (k, v) => v ++ name.drop k.length
      | none => name

/-- Strip one trailing `/*` (the `alias.replace(/\/\*$/, '')`). -/
def stripSlashStar (s : Str) : Str :=
  if strEndsWith s (str "/*") then s.take (s.length - 2) else s

/-- `ModuleResolver.applyPathAlias`: first alias whose cleaned prefix
matches and whose first target is truthy wins; `baseUrl` (when truthy) is
prepended to the joined result. -/
def applyPathAliasList (baseUrl : Option Str) : List (Str × List Str) → Str → Str
  | [], path => path
  | (alias_, targets) :: rest, path =>
    let cleanAlias := stripSlashStar alias_
    if strStartsWith path cleanAlias then
      match targets.headD [] with
      | [] => applyPathAliasList baseUrl rest path
      | t =>
        let cleanTarget := stripSlashStar t
        let relativePath := path.drop cleanAlias.length
        match baseUrl with
        | some b => if b ≠ [] then joinPaths [b, cleanTarget, relativePath]
            else joinPaths [cleanTarget, relativePath]
        | none => joinPaths [cleanTarget, relativePath]
    else applyPathAliasList baseUrl rest path

/-- `ModuleResolver.applyPathAlias`. -/
def applyPathAlias (cfg : RtConfig) (path : Str) : Str :=
  match cfg.pathAliases with
  | none => path
  | some aliases => applyPathAliasList cfg.baseUrl aliases path

/-- `JsrResolver.resolveRelative`: pure join of the relative path against
the parent identity's directory. -/
def jsrResolveRelative (relativePath parentPath : Str) : Str :=
  normalizePath (joinPaths [dirname parentPath, relativePath])

/-- The collaborating resolvers and host facilities the dispatcher calls,
as oracles over an abstract world `W`.  The sub-resolvers cannot touch
the dispatcher's private memo, which lives outside `W`. -/
structure SubResolvers (W : Type) where
  nodeResolve : Str → W → Except Str (Str × W)
  jsrResolve : Str → Str → W → Except Str (Str × W)
  httpResolveRel : Str → Str → W → Except Str (Str × W)
  npmResolve : Str → Str → W → Except Str (Str × W)
  tryResolve : Str → W → Except Str Str × W
  getcwd : W → Str
  win32 : Bool

/-- Dispatcher state: the private `resolutionCache` memo plus the world.
The source also stores a timestamp with each entry; it is never read, so
the memo keeps only the resolved identity. -/
structure DState (W : Type) where
  cache : List (Str × Str)
  world : W
  deriving DecidableEq

/-- `ModuleResolver.resolveRelative`: dispatch on the parent's protocol;
the JSR joiner is pure, the HTTP one delegates to the HTTP resolver, and
the local branch joins against the parent directory (or the cwd), applies
aliases and probes for existence. -/
def modResolveRelative {W : Type} (cfg : RtConfig) (deps : SubResolvers W)
    (name parent : Str) (w : W) : Except Str (Str × W) :=
  if strStartsWith parent (str "jsr:") then
    .ok (jsrResolveRelative name parent, w)
  else if strStartsWith parent (str "http://") || strStartsWith parent (str "https://") then
    deps.httpResolveRel name parent w
  else
    let parentDir := if parent ≠ [] then dirname parent else deps.getcwd w
    let fullPath := normalizePath (joinPaths [parentDir, name])
    let resolved := applyPathAlias cfg fullPath
    match deps.tryResolve resolved w with
    | (.ok _, w') => .ok (resolved, w')
    | (.error e, _) => .error e

/-- `ModuleResolver.resolvePackage`: a successful alias rewrite that
probes to an existing file wins; otherwise fall through to NPM. -/
def modResolvePackage {W : Type} (cfg : RtConfig) (deps : SubResolvers W)
    (name parent : Str) (w : W) : Except Str (Str × W) :=
  let aliased := applyPathAlias cfg name
  if aliased ≠ name then
    match deps.tryResolve aliased w with
    | (.ok _, w') => .ok (aliased, w')
    | (.error _, w') => deps.npmResolve name parent w'
  else deps.npmResolve name parent w

/-- `ModuleResolver.resolve`: memo lookup on the `name::parent` key, then
the import-map rewrite, then protocol classification; an `http(s)://` name is
returned as-is (the HTTP resolver is not invoked here); the result is
memoized. -/
def modResolve {W : Type} (cfg : RtConfig) (deps : SubResolvers W)
    (name parent : Str) (s : DState W) : Except Str (Str × DState W) :=
  let cacheKey := name ++ str "::" ++ parent
  match s.cache.lookup cacheKey with
  | some r => .ok (r, s)
  | none =>
    let mappedName := applyImportMap cfg name
    let branch : Except Str (Str × W) :=
      if strStartsWith mappedName (str "node:") then
        if ¬ cfg.enableNode then .error (str "Node.js compatibility layer is disabled")
        else deps.nodeResolve mappedName s.world
      else if strStartsWith mappedName (str "http://") ||
          strStartsWith mappedName (str "https://") then
        if ¬ cfg.enableHttp then .error (str "HTTP module loading is disabled")
        else .ok (mappedName, s.world)
      else if strStartsWith mappedName (str "jsr:") then
        if ¬ cfg.enableJsr then .error (str "JSR module loading is disabled")
        else deps.jsrResolve mappedName parent s.world
      else if strStartsWith mappedName (str "./") || strStartsWith mappedName (str "../") then
        modResolveRelative cfg deps mappedName parent s.world
      else if isAbsolutePath deps.win32 mappedName then
        let resolved := applyPathAlias cfg mappedName
        match deps.tryResolve resolved s.world with
        | (.ok _, w') => .ok (resolved, w')
        | (.error e, _) => .error e
      else modResolvePackage cfg deps mappedName parent s.world
    match branch with
    | .error e => .error e
    | .ok (resolved, w') => .ok (resolved, ⟨mapSet s.cache cacheKey resolved, w'⟩)

/-- `ModuleResolver.clearCache`: empty the session memo only. -/
def clearCache {W : Type} (s : DState W) : DState W := { s with cache := [] }

/-! ## resolver/jsr.ts: file-path resolution -/

/-- `JsrVersionMeta`: the manifest's key set (its values are size/checksum
objects, always truthy, so only key presence matters to `resolveFile`) and
the optional export map. -/
structure JsrVersionMeta where
  manifest : List Str
  exports : Option (List (Str × Str))
  deriving DecidableEq

/-- Object lookup under JS truthiness: an empty-string value is falsy. -/
def lookupTruthy (m : List (Str × Str)) (k : Str) : Option Str :=
  match m.lookup k with
  | some v => if v ≠ [] then some v else none
  | none => none

/-- The file extensions `JsrResolver.resolveFile` probes, in source order. -/
def jsrExtensions : List Str :=
  [str ".ts", str ".tsx", str ".js", str ".jsx", str ".mjs"]

/-- `JsrResolver.resolveFile`: default export for an empty/`/`/`.` path;
otherwise normalize to a package-root-absolute path and try the export
map (key `.` + path, value normalized), the manifest, the extension list,
then `<path>/index<ext>`; else the `Cannot find` error. -/
def jsrResolveFile (scope name version path : Str) (meta : JsrVersionMeta) :
    Except Str Str :=
  if path = [] || path = str "/" || path = str "." then
    let defaultExport :=
      match meta.exports with
      | some ex =>
        match lookupTruthy ex (str ".") with
        | some v => some v
        | none => lookupTruthy ex (str "./mod.ts")
      | none => none
    match defaultExport with
    | some de => .ok (if strStartsWith de (str "./") then de.drop 2 else de)
    | none => .error (str "No entry point found for @" ++ scope ++ str "/" ++ name ++
        str "@" ++ version)
  else
    let normalizedPath := normalizePath (if strStartsWith path (str "/") then path else '/' :: path)
    let exportsKey := '.' :: normalizedPath
    match (match meta.exports with
           | some ex => lookupTruthy ex exportsKey
           | none => none) with
    | some v => .ok (normalizePath v)
    | none =>
      if meta.manifest.contains normalizedPath then .ok normalizedPath
      else
        match jsrExtensions.findSome? (fun ext =>
            if meta.manifest.contains (normalizedPath ++ ext) then
              some (normalizedPath ++ ext) else none) with
        | some p => .ok p
        | none =>
          match jsrExtensions.findSome? (fun ext =>
              let indexPath := normalizedPath ++ str "/index" ++ ext
              if meta.manifest.contains indexPath then some indexPath else none) with
          | some p => .ok p
          | none => .error (str "Cannot find " ++ path ++ str " in @" ++ scope ++
              str "/" ++ name ++ str "@" ++ version)

/-- `JsrResolver.resolveFile` as the (amended) specification words it: the
same default-export rule, and for any other path the first match among the
flat candidate list (a) export-map entry at `.` + normalized path (value
normalized), (b) manifest key equal to the normalized path, (c) the
normalized path plus each extension, (d) `<path>/index<ext>`, else the
`Cannot find` error naming package and version. -/
def jsrResolveFileClaim (scope name version path : Str) (meta : JsrVersionMeta) :
    Except Str Str :=
  if path = [] || path = str "/" || path = str "." then
    let defaultExport :=
      match meta.exports with
      | some ex =>
        match lookupTruthy ex (str ".") with
        | some v => some v
        | none => lookupTruthy ex (str "./mod.ts")
      | none => none
    match defaultExport with
    | some de => .ok (if strStartsWith de (str "./") then de.drop 2 else de)
    | none => .error (str "No entry point found for @" ++ scope ++ str "/" ++ name ++
        str "@" ++ version)
  else
    let np := normalizePath (if strStartsWith path (str "/") then path else '/' :: path)
    let candidates : List (Option Str) :=
      [(match meta.exports with
        | some ex => lookupTruthy ex ('.' :: np)
        | none => none).map normalizePath,
       if meta.manifest.contains np then some np else none] ++
      jsrExtensions.map (fun ext =>
        if meta.manifest.contains (np ++ ext) then some (np ++ ext) else none) ++
      jsrExtensions.map (fun ext =>
        if meta.manifest.contains (np ++ str "/index" ++ ext) then
          some (np ++ str "/index" ++ ext) else none)
    match candidates.findSome? id with
    | some r => .ok r
    | none => .error (str "Cannot find " ++ path ++ str " in @" ++ scope ++
        str "/" ++ name ++ str "@" ++ version)

/-! ## resolver/npm.ts -/

/-- A JSON value under a condition key of a conditional-exports object:
either a string or some other (truthy) JSON object. -/
inductive CondVal where
  | str (s : Str)
  | obj
  deriving DecidableEq

/-- JS stringification when a non-string value reaches string context. -/
def condValStr : CondVal → Str
  | .str s => s
  | .obj => str "[object Object]"

/-- JS truthiness of a condition value. -/
def condTruthy : CondVal → Bool
  | .str s => s ≠ []
  | .obj => true

/-- A value of one `exports` key: a string target or a conditional object. -/
inductive ExportTarget where
  | str (s : Str)
  | cond (entries : List (Str × CondVal))
  deriving DecidableEq

/-- The `exports` field of `package.json`: a bare string or an object. -/
inductive ExportsField where
  | str (s : Str)
  | obj (entries : List (Str × ExportTarget))
  deriving DecidableEq

/-- JS truthiness of the `exports` field. -/
def exportsTruthy : ExportsField → Bool
  | .str s => s ≠ []
  | .obj _ => true

/-- `package.json`, restricted to the fields the NPM resolver reads. -/
structure PackageJson where
  main : Option Str
  module : Option Str
  exports : Option ExportsField
  deriving DecidableEq

/-- The `checkPath` closure of `NpmResolver.resolvePackageExports` in
`src/resolver/npm.ts`: a string target joins onto the package directory;
an object target is consulted only at its `default` key (taken when
truthy, whatever its type); anything else is `null`. -/
def checkPath (packageDir : Str) (entries : List (Str × ExportTarget))
    (path : Str) : Option Str :=
  match entries.lookup path with
  | some (.str v) => some (joinPaths [packageDir, v])
  | some (.cond cvs) =>
    match cvs.lookup (str "default") with
    | some cv => if condTruthy cv then some (joinPaths [packageDir, condValStr cv]) else none
    | none => none
  | none => none

/-- `NpmResolver.resolvePackageExports` (`src/resolver/npm.ts`).  The
`pkg` argument stands for reading and parsing `packageDir/package.json`;
`none` covers a missing file and a parse error (the catch-all). -/
def resolvePackageExports (packageDir : Str) (pkg : Option PackageJson)
    (subpath : Str) : Option Str :=
  match pkg with
  | none => none
  | some p =>
    match p.exports with
    | none => none
    | some ef =>
      if ¬ exportsTruthy ef then none
      else
        match ef with
        | .str s =>
          if subpath = str "." || subpath = [] then some (joinPaths [packageDir, s])
          else none
        | .obj entries =>
          match checkPath packageDir entries subpath with
          | some r => some r
          | none =>
            let withDot :=
              if strStartsWith subpath (str "./") then subpath else str "./" ++ subpath
            checkPath packageDir entries withDot

/-- The file-system and host facilities the NPM resolver reads, as
oracles; `pkgJson dir` stands for reading+parsing `dir/package.json`. -/
structure NpmFs where
  exists_ : Str → Bool
  isFile : Str → Bool
  isDir : Str → Bool
  getcwd : Str
  win32 : Bool
  pkgJson : Str → Option PackageJson

/-- Model bound on the recursion depth of `tryResolveFile` (the JS
engine's call-stack bound; the directory-`index` recursion is otherwise
unbounded on a pathological file system). -/
def tryResolveDepth : Nat := 256

/-- `utils.ts` `tryResolveFile` with the default extension list: exact
file, directory `index` recursion, extension probing, then directory
index files, else the `Cannot find module` error. -/
def tryResolveFile (fs : NpmFs) : Nat → Str → Except Str Str
  | 0, basePath => .error (str "Cannot find module: " ++ basePath)
  | depth + 1, basePath =>
    if fs.exists_ basePath && fs.isFile basePath then .ok basePath
    else if fs.exists_ basePath && fs.isDir basePath then
      tryResolveFile fs depth (joinPaths [basePath, str "index"])
    else
      let exts := [str ".ts", str ".tsx", str ".js", str ".jsx", str ".mjs",
        str ".cjs", str ".json"]
      match exts.findSome? (fun ext =>
          if fs.exists_ (basePath ++ ext) then some (basePath ++ ext) else none) with
      | some p => .ok p
      | none =>
        let idx := [str "index.ts", str "index.tsx", str "index.js", str "index.jsx"]
        match idx.findSome? (fun i =>
            let p := joinPaths [basePath, i]
            if fs.exists_ p then some p else none) with
        | some p => .ok p
        | none => .error (str "Cannot find module: " ++ basePath)

/-- `NpmResolver.resolvePackageMain`: inside the `try`, `exports` (queried
at `.`, its `tryResolveFile` throw caught), then a `module` file that
exists, then `main` via `tryResolveFile` (throw caught); a caught throw or
normal fall-through both end at the default `index` probing. -/
def resolvePackageMain (fs : NpmFs) (packageDir : Str) : Except Str Str :=
  let attempt : Option (Except Str Str) :=
    match fs.pkgJson packageDir with
    | none => none
    | some pkg =>
      let step1 : Option (Except Str Str) :=
        match pkg.exports with
        | some ef =>
          if exportsTruthy ef then
            match resolvePackageExports packageDir (fs.pkgJson packageDir) (str ".") with
            | some exported => some (tryResolveFile fs tryResolveDepth exported)
            | none => none
          else none
        | none => none
      match step1 with
      | some r => some r
      | none =>
        let step2 : Option (Except Str Str) :=
          match pkg.module with
          | some m =>
            if m ≠ [] && fs.exists_ (joinPaths [packageDir, m]) then
              some (.ok (joinPaths [packageDir, m]))
            else none
          | none => none
        match step2 with
        | some r => some r
        | none =>
          match pkg.main with
          | some m =>
            if m ≠ [] then some (tryResolveFile fs tryResolveDepth (joinPaths [packageDir, m]))
            else none
          | none => none
  match attempt with
  | some (.ok r) => .ok r
  | some (.error _) => tryResolveFile fs tryResolveDepth (joinPaths [packageDir, str "index"])
  | none => tryResolveFile fs tryResolveDepth (joinPaths [packageDir, str "index"])

/-- `NpmResolver.parsePackageName`. -/
def parsePackageName (name : Str) : Except Str (Str × Str) :=
  if strStartsWith name (str "@") then
    let parts := strSplitOn name (str "/")
    if parts.length < 2 then .error (str "Invalid scoped package name: " ++ name)
    else
      let packageName := parts.headD [] ++ str "/" ++ (parts.get? 1).getD []
      let subpath := List.intercalate (str "/") (parts.drop 2)
      .ok (packageName, if subpath ≠ [] then str "./" ++ subpath else [])
  else
    match strIdxOf name '/' with
    | none => .ok (name, [])
    | some i => .ok (name.take i, str "./" ++ name.drop (i + 1))

/-- The upward walk of `getModuleSearchPaths` (the bound exceeds the
number of `dirname` steps possible and is never reached). -/
def walkUp (fs : NpmFs) : Nat → Str → Str → List Str
  | 0, _, _ => []
  | bound + 1, current, root =>
    if current ≠ [] && current ≠ root then
      let nm := joinPaths [current, str "node_modules"]
      let parentDir := dirname current
      (if fs.exists_ nm then [nm] else []) ++
        (if parentDir = current then [] else walkUp fs bound parentDir root)
    else []

/-- `NpmResolver.getModuleSearchPaths`. -/
def getModuleSearchPaths (fs : NpmFs) (globalCacheDir parent : Str) : List Str :=
  let ancestors :=
    if parent ≠ [] then
      let current := dirname parent
      let root :=
        if fs.win32 then (strSplitOn current (str ":")).headD [] ++ str ":/"
        else str "/"
      walkUp fs (current.length + 2) current root
    else []
  let cwdNM := joinPaths [fs.getcwd, str "node_modules"]
  let paths := if ancestors.contains cwdNM then ancestors else ancestors ++ [cwdNM]
  if ¬ paths.contains globalCacheDir && fs.exists_ globalCacheDir then
    paths ++ [globalCacheDir]
  else paths

/-- `NpmResolver.findPackageDir`: first search path containing the package
as a subdirectory. -/
def findPackageDir (fs : NpmFs) (globalCacheDir packageName parent : Str) :
    Option Str :=
  (getModuleSearchPaths fs globalCacheDir parent).findSome? (fun searchPath =>
    let packagePath := joinPaths [searchPath, packageName]
    if fs.exists_ packagePath && fs.isDir packagePath then some packagePath else none)

/-- NPM registry metadata, restricted to what `autoInstallPackage` reads:
`dist-tags.latest` and the per-version tarball URL. -/
structure NpmMeta where
  latest : Option Str
  versions : List (Str × Str)
  deriving DecidableEq

/-- A network operation performed by the NPM resolver. -/
inductive NetEvent where
  | metaFetch (url : Str)
  | tarballFetch (url : Str)
  deriving DecidableEq

/-- The state the NPM resolver touches: the set of existing file-system
paths, the trace of network operations, and the memoized registry URL
(the `npmConfig` field of the resolver instance). -/
structure NpmWorld where
  files : List Str
  events : List NetEvent
  regMemo : Option Str
  deriving DecidableEq

/-- The NPM resolver's external collaborators: environment, `~/.npmrc`
content (when the file exists and is readable), the registry metadata
endpoint, the tarball endpoint, and `zlib.gunzip`. -/
structure NpmNet where
  env : Option Str
  npmrc : Option Str
  metaResp : Str → Except Str NpmMeta
  tarballResp : Str → Except Str (List Nat)
  gunzip : List Nat → Except Str (List Nat)

/-- `NpmResolver.getNpmConfig` (`src/resolver/npm.ts`): memoized; else
environment override, else the first `registry=` line of `~/.npmrc`, else
the public registry. -/
def getNpmConfig (net : NpmNet) (w : NpmWorld) : Str × NpmWorld :=
  match w.regMemo with
  | some r => (r, w)
  | none =>
    let fromNpmrc : Str :=
      match net.npmrc with
      | some content =>
        match (strSplitOn content (str "\n")).findSome? (fun line =>
          let trimmed := strTrim line
          if strStartsWith trimmed (str "registry=") then
            some (strTrim (trimmed.drop 9))
          else none) with
        | some reg => reg
        | none => str "https://registry.npmjs.org"
      | none => str "https://registry.npmjs.org"
    let r :=
      match net.env with
      | some e => if e ≠ [] then e else fromNpmrc
      | none => fromNpmrc
    (r, { w with regMemo := some r })

/-- `NpmResolver.autoInstallPackage` (`src/resolver/npm.ts`): fetch
registry metadata, take `dist-tags.latest`, return the existing target
directory if present (checked after the metadata fetch, before the
tarball download), else download and gunzip the tarball, parse the tape,
and write the `file` entries under the target with the `package/` prefix
stripped.  The surrounding catch-all turns every failure into `none`. -/
def autoInstallPackage (cfg : RtConfig) (net : NpmNet) (packageName : Str)
    (w : NpmWorld) : Option Str × NpmWorld :=
  let globalCacheDir := joinPaths [cfg.cacheDir, str "node_modules"]
  let (registry, w) := getNpmConfig net w
  let metaUrl := registry ++ str "/" ++ strReplaceFirst packageName (str "/") (str "%2F")
  let w := { w with events := w.events ++ [.metaFetch metaUrl] }
  match net.metaResp metaUrl with
  | .error _ => (none, w)
  | .ok metadata =>
    match metadata.latest with
    | none => (none, w)
    | some version =>
      if version = [] then (none, w)
      else
        match metadata.versions.lookup version with
        | none => (none, w)
        | some tarballUrl =>
          let packageDir := joinPaths [globalCacheDir, packageName]
          if w.files.contains packageDir then (some packageDir, w)
          else
            let w := { w with events := w.events ++ [.tarballFetch tarballUrl] }
            match net.tarballResp tarballUrl with
            | .error _ => (none, w)
            | .ok tarballData =>
              match net.gunzip tarballData with
              | .error _ => (none, w)
              | .ok tarBytes =>
                let files := parseTar tarBytes
                let w := { w with files := w.files ++ [packageDir] }
                let w := files.foldl (fun (w : NpmWorld) file =>
                  if file.type ≠ .file then w
                  else
                    let filePath :=
                      if strStartsWith file.path (str "package/") then file.path.drop 8
                      else file.path
                    { w with files := w.files ++ [joinPaths [packageDir, filePath]] }) w
                (some packageDir, w)

/-- `NpmResolver.resolve` (`src/resolver/npm.ts`): parse, search the
`node_modules` paths, auto-install on a miss; with a directory in hand,
resolve the subpath via `exports` then direct probing, or the main entry. -/
def npmResolve (cfg : RtConfig) (fs : NpmFs) (net : NpmNet)
    (name parent : Str) (w : NpmWorld) : Except Str Str × NpmWorld :=
  match parsePackageName name with
  | .error e => (.error e, w)
  | .ok (packageName, subpath) =>
    let globalCacheDir := joinPaths [cfg.cacheDir, str "node_modules"]
    let (dirOpt, w) :=
      match findPackageDir fs globalCacheDir packageName parent with
      | some d => (some d, w)
      | none => autoInstallPackage cfg net packageName w
    match dirOpt with
    | none =>
      (.error (str "Package \x22" ++ packageName ++
        str "\x22 not found and auto-install failed"), w)
    | some packageDir =>
      if subpath ≠ [] then
        match resolvePackageExports packageDir (fs.pkgJson packageDir) subpath with
        | some exported => (.ok exported, w)
        | none => (tryResolveFile fs tryResolveDepth (joinPaths [packageDir, subpath]), w)
      else (resolvePackageMain fs packageDir, w)


/-! ## Order lemmas for `compareVersions` and the `reduce` of
`matchLatestVersion` -/

theorem cmpParts_expand (a b : List Int) :
    cmpParts a b = if a.headD 0 > b.headD 0 then 1
      else if a.headD 0 < b.headD 0 then -1
      else cmpParts a.tail b.tail := by
  cases a with
  | nil =>
    cases b with
    | nil => norm_num [cmpParts, cmpLists]
    | cons y ys => simp [cmpParts, cmpLists, List.replicate_succ]
  | cons x xs =>
    cases b with
    | nil => simp [cmpParts, cmpLists]
    | cons y ys => simp [cmpParts, cmpLists, Nat.succ_sub_succ]

theorem cmpParts_self (a : List Int) : cmpParts a a = 0 := by
  induction a with
  | nil => norm_num [cmpParts, cmpLists]
  | cons x xs ih => rw [cmpParts_expand]; simp [ih]

theorem cmpParts_neg (a b : List Int) : cmpParts b a = -cmpParts a b := by
  by_cases hall : a = [] ∧ b = []
  · obtain ⟨ha, hb⟩ := hall; subst ha; subst hb
    norm_num [cmpParts, cmpLists]
  · rw [cmpParts_expand b a, cmpParts_expand a b]
    rcases lt_trichotomy (a.headD 0) (b.headD 0) with h | h | h
    · rw [if_pos (by omega : b.headD 0 > a.headD 0),
        if_neg (by omega : ¬ a.headD 0 > b.headD 0), if_pos h]
      try norm_num
    · rw [if_neg (by omega : ¬ b.headD 0 > a.headD 0),
        if_neg (by omega : ¬ b.headD 0 < a.headD 0),
        if_neg (by omega : ¬ a.headD 0 > b.headD 0),
        if_neg (by omega : ¬ a.headD 0 < b.headD 0)]
      exact cmpParts_neg a.tail b.tail
    · rw [if_neg (by omega : ¬ b.headD 0 > a.headD 0),
        if_pos (by omega : b.headD 0 < a.headD 0),
        if_pos (by omega : a.headD 0 > b.headD 0)]
      try norm_num
termination_by a.length + b.length
decreasing_by
  rw [not_and_or] at hall
  rcases hall with h | h
  · have := List.length_pos.mpr h
    simp [List.length_tail]; omega
  · have := List.length_pos.mpr h
    simp [List.length_tail]; omega

theorem cmpParts_trans (a b c : List Int) (h1 : cmpParts a b ≤ 0) (h2 : cmpParts b c ≤ 0) :
    cmpParts a c ≤ 0 ∧ ((cmpParts a b < 0 ∨ cmpParts b c < 0) → cmpParts a c < 0) := by
  by_cases hall : a = [] ∧ b = [] ∧ c = []
  · obtain ⟨ha, hb, hc⟩ := hall; subst ha; subst hb; subst hc
    norm_num [cmpParts, cmpLists]
  · rw [cmpParts_expand a b] at h1
    rw [cmpParts_expand b c] at h2
    rw [cmpParts_expand a b, cmpParts_expand b c, cmpParts_expand a c]
    rcases lt_trichotomy (a.headD 0) (b.headD 0) with hxy | hxy | hxy <;>
      rcases lt_trichotomy (b.headD 0) (c.headD 0) with hyz | hyz | hyz
    · rw [if_neg (by omega : ¬ a.headD 0 > c.headD 0), if_pos (by omega : a.headD 0 < c.headD 0)]
      norm_num
    · rw [if_neg (by omega : ¬ a.headD 0 > c.headD 0), if_pos (by omega : a.headD 0 < c.headD 0)]
      norm_num
    · rw [if_pos hyz] at h2; omega
    · rw [if_neg (by omega : ¬ a.headD 0 > c.headD 0), if_pos (by omega : a.headD 0 < c.headD 0)]
      norm_num
    · -- all heads equal: recurse on the tails
      rw [if_neg (by omega : ¬ a.headD 0 > b.headD 0),
        if_neg (by omega : ¬ a.headD 0 < b.headD 0)] at h1 ⊢
      rw [if_neg (by omega : ¬ b.headD 0 > c.headD 0),
        if_neg (by omega : ¬ b.headD 0 < c.headD 0)] at h2 ⊢
      rw [if_neg (by omega : ¬ a.headD 0 > c.headD 0),
        if_neg (by omega : ¬ a.headD 0 < c.headD 0)]
      exact cmpParts_trans a.tail b.tail c.tail h1 h2
    · rw [if_pos hyz] at h2; omega
    · rw [if_pos (by omega : a.headD 0 > b.headD 0)] at h1; omega
    · rw [if_pos (by omega : a.headD 0 > b.headD 0)] at h1; omega
    · rw [if_pos (by omega : a.headD 0 > b.headD 0)] at h1; omega
termination_by a.length + b.length + c.length
decreasing_by
  rw [not_and_or, not_and_or] at hall
  rcases hall with h | h | h
  · have := List.length_pos.mpr h
    simp [List.length_tail]; omega
  · have := List.length_pos.mpr h
    simp [List.length_tail]; omega
  · have := List.length_pos.mpr h
    simp [List.length_tail]; omega

theorem compareVersions_self (v : Str) : compareVersions v v = 0 :=
  cmpParts_self _

theorem compareVersions_neg (v w : Str) : compareVersions w v = -compareVersions v w :=
  cmpParts_neg _ _

theorem compareVersions_le_trans {u v w : Str}
    (h1 : compareVersions u v ≤ 0) (h2 : compareVersions v w ≤ 0) :
    compareVersions u w ≤ 0 :=
  (cmpParts_trans _ _ _ h1 h2).1

theorem compareVersions_lt_of_lt_of_le {u v w : Str}
    (h1 : compareVersions u v < 0) (h2 : compareVersions v w ≤ 0) :
    compareVersions u w < 0 :=
  (cmpParts_trans _ _ _ (le_of_lt h1) h2).2 (Or.inl h1)

theorem compareVersions_lt_of_le_of_lt {u v w : Str}
    (h1 : compareVersions u v ≤ 0) (h2 : compareVersions v w < 0) :
    compareVersions u w < 0 :=
  (cmpParts_trans _ _ _ h1 (le_of_lt h2)).2 (Or.inr h2)

theorem latestReduce_cons (m c : Str) (ms : List Str) :
    latestReduce m (c :: ms) =
      latestReduce (if compareVersions c m > 0 then c else m) ms := rfl


theorem latestReduce_mem (m : Str) (ms : List Str) :
    latestReduce m ms = m ∨ latestReduce m ms ∈ ms := by
  induction ms generalizing m with
  | nil => left; rfl
  | cons c ms ih =>
    rw [latestReduce_cons]
    rcases ih (if compareVersions c m > 0 then c else m) with h | h
    · rw [h]
      split
      · right; exact List.mem_cons_self _ _
      · left; rfl
    · right; exact List.mem_cons_of_mem _ h


theorem latestReduce_ge (m : Str) (ms : List Str) :
    compareVersions m (latestReduce m ms) ≤ 0 ∧
      ∀ w ∈ ms, compareVersions w (latestReduce m ms) ≤ 0 := by
  induction ms generalizing m with
  | nil => exact ⟨le_of_eq (compareVersions_self m), by simp⟩
  | cons c ms ih =>
    rw [latestReduce_cons]
    obtain ⟨ih1, ih2⟩ := ih (if compareVersions c m > 0 then c else m)
    by_cases h : compareVersions c m > 0
    · rw [if_pos h] at ih1 ih2 ⊢
      refine ⟨?_, ?_⟩
      · have hmc : compareVersions m c < 0 := by
          rw [compareVersions_neg]; omega
        exact le_of_lt (compareVersions_lt_of_lt_of_le hmc ih1)
      · intro w hw
        rcases List.mem_cons.mp hw with rfl | hw
        · exact ih1
        · exact ih2 w hw
    · rw [if_neg h] at ih1 ih2 ⊢
      refine ⟨ih1, ?_⟩
      intro w hw
      rcases List.mem_cons.mp hw with rfl | hw
      · exact compareVersions_le_trans (by omega) ih1
      · exact ih2 w hw



theorem latestReduce_first (m : Str) (ms : List Str) :
    ∃ l₁ l₂, m :: ms = l₁ ++ latestReduce m ms :: l₂ ∧
      ∀ w ∈ l₁, compareVersions w (latestReduce m ms) < 0 := by
  induction ms generalizing m with
  | nil => exact ⟨[], [], rfl, by simp⟩
  | cons c ms ih =>
    rw [latestReduce_cons]
    by_cases h : compareVersions c m > 0
    · rw [if_pos h]
      obtain ⟨l₁, l₂, he, hlt⟩ := ih c
      refine ⟨m :: l₁, l₂, ?_, ?_⟩
      · rw [List.cons_append, ← he]
      · intro w hw
        rcases List.mem_cons.mp hw with rfl | hw
        · have hmc : compareVersions w c < 0 := by
            rw [compareVersions_neg]; omega
          exact compareVersions_lt_of_lt_of_le hmc (latestReduce_ge c ms).1
        · exact hlt w hw
    · rw [if_neg h]
      obtain ⟨l₁, l₂, he, hlt⟩ := ih m
      generalize hR : latestReduce m ms = r at he hlt ⊢
      cases l₁ with
      | nil =>
        simp only [List.nil_append, List.cons.injEq] at he
        refine ⟨[], c :: ms, ?_, by simp⟩
        rw [List.nil_append, ← he.1]
      | cons m' l₁' =>
        simp only [List.cons_append, List.cons.injEq] at he
        obtain ⟨rfl, hms⟩ := he
        refine ⟨m :: c :: l₁', l₂, by simp [hms], ?_⟩
        intro w hw
        have hmlt : compareVersions m r < 0 := hlt m (List.mem_cons_self _ _)
        rcases List.mem_cons.mp hw with rfl | hw
        · exact hmlt
        · rcases List.mem_cons.mp hw with rfl | hw
          · exact compareVersions_lt_of_le_of_lt (by omega) hmlt
          · exact hlt w (List.mem_cons_of_mem _ hw)

/-! ## Concrete fixtures used by the claim theorems -/

/-- A configuration with cache root `/c`, every protocol enabled, and
neither an import map nor path aliases. -/
def exCfg : RtConfig := ⟨str "/c", true, true, true, true, none, none, none⟩

/-- The example URL of the HTTP claims. -/
def exUrl : Str := str "http://h/a.ts"

/-- The deterministic cache path the HTTP resolver computes for `exUrl`. -/
def exHttpCachePath : Str := (httpCachePath exCfg exUrl).getD []

/-- An HTTP-resolver state in which the cache file for `exUrl` exists. -/
def exHttpState : HState := ⟨[(exHttpCachePath, str "x")], [], []⟩

/-- Sub-resolvers over a trivial world: only the NPM oracle succeeds, and
it records which arguments it was called with in its result. -/
def exDeps : SubResolvers Unit where
  nodeResolve := fun _ _ => .error (str "node oracle")
  jsrResolve := fun _ _ _ => .error (str "jsr oracle")
  httpResolveRel := fun _ _ _ => .error (str "http oracle")
  npmResolve := fun n p w => .ok (n ++ str "|" ++ p, w)
  tryResolve := fun _ w => (.error (str "no file"), w)
  getcwd := fun _ => str "/cwd"
  win32 := false

/-- The dispatcher state after resolving `("a::b", "c")` through `exDeps`. -/
def exCollidedState : DState Unit := ⟨[(str "a::b::c", str "a::b|c")], ()⟩

/-- The claim's JSR example: version manifest `{"./mod.ts": {...}}` and
export map `{".": "./mod.ts"}`. -/
def exMetaDot : JsrVersionMeta := ⟨[str "./mod.ts"], some [(str ".", str "./mod.ts")]⟩

/-- The corrected JSR example: the manifest keyed by the package-root-
absolute path `/mod.ts`, as JSR version documents are. -/
def exMetaAbs : JsrVersionMeta := ⟨[str "/mod.ts"], some [(str ".", str "./mod.ts")]⟩

/-- A `package.json` whose `.` export is a conditional object with only an
`import` condition. -/
def exPkgImportOnly : PackageJson :=
  ⟨none, none, some (.obj [(str ".", .cond [(str "import", .str (str "./a.js"))])])⟩

/-- NPM oracles whose metadata endpoint succeeds with latest `1.0.0` and
whose tarball endpoint always fails. -/
def exNpmNet : NpmNet :=
  ⟨none, none,
   fun _ => .ok ⟨some (str "1.0.0"), [(str "1.0.0", str "T")]⟩,
   fun _ => .error (str "tarball down"),
   fun _ => .error (str "gunzip fail")⟩

/-- An NPM world in which `lodash` is already present in the global cache
and the registry URL is memoized to `R`. -/
def exNpmWorld : NpmWorld := ⟨[str "/c/node_modules/lodash"], [], some (str "R")⟩

/-- A 512-byte TAR tape: one header block whose name is `a`, whose size
field is all NUL (size 0), and whose type-flag byte is NUL. -/
def exTape : List Nat := 97 :: List.replicate 511 0

/-! ## Claim theorems -/

/-- C1, counterexample: the claim says `HttpResolver.resolve(url)` "returns
the URL unchanged as the resolved identity when the cache file is present".
On a cache hit the code returns the cache path instead (and performs no
fetch: the network oracle here answers 500, yet resolution succeeds and the
fetch trace stays empty). -/
theorem httpResolve_cachehit_returns_path :
    httpResolve exCfg (fun _ => (500, [])) exHttpState exUrl =
      .ok (exHttpCachePath,
        ⟨[(exHttpCachePath, str "x")], [(exHttpCachePath, exUrl)], []⟩) ∧
    exHttpCachePath ≠ exUrl := by decide

/-- C2, counterexample: with the claim's own example data — manifest
`{"./mod.ts": {...}}`, exports `{".": "./mod.ts"}` — the subpath `/mod.ts`
does not resolve: the code looks the normalized path `/mod.ts` up in the
manifest (and `./mod.ts` in the exports), finds neither, and raises the
"cannot find" error, while the claim says it yields `mod.ts`. -/
theorem jsrResolveFile_dot_manifest_fails :
    jsrResolveFile (str "x") (str "y") (str "1.0.0") (str "/mod.ts") exMetaDot =
      .error (str "Cannot find /mod.ts in @x/y@1.0.0") ∧
    jsrResolveFile (str "x") (str "y") (str "1.0.0") (str "") exMetaDot =
      .ok (str "mod.ts") := by decide

/-- C4, counterexample: with the import map
`{"@/": "./s1/", "@/utils/": "./u/"}` the specifier `@/utils/x.ts` is
rewritten using the *first* matching prefix entry `@/` to
`./s1/utils/x.ts`, although the longer key `@/utils/` also matches and the
claim's longest-prefix rule would give `./u/x.ts`. -/
theorem applyImportMap_first_not_longest :
    applyImportMap ⟨str "/c", true, true, true, true, none, none,
        some [(str "@/", str "./s1/"), (str "@/utils/", str "./u/")]⟩
      (str "@/utils/x.ts") = str "./s1/utils/x.ts" ∧
    strEndsWith (str "@/utils/") (str "/") = true ∧
    strStartsWith (str "@/utils/x.ts") (str "@/utils/") = true ∧
    (str "@/utils/").length > (str "@/").length ∧
    str "./s1/utils/x.ts" ≠ str "./u/" ++ (str "@/utils/x.ts").drop (str "@/utils/").length := by
  decide

/-- C5, counterexample: an export target that is an object with only an
`import` condition (a string) resolves to `null` in the live
`src/resolver/npm.ts`, although the claim's `import`-first rule would
produce the joined path: only the `default` key is consulted. -/
theorem npmExports_import_condition_ignored :
    resolvePackageExports (str "/p") (some exPkgImportOnly) (str ".") = none := by decide

/-- C6, counterexample: with the target directory already present, the
auto-install step still performs the registry-metadata fetch (the event
trace of the successful run contains it), contradicting "no network
operation is performed at all"; only the tarball download is skipped. -/
theorem autoInstall_meta_fetch_despite_dir :
    autoInstallPackage exCfg exNpmNet (str "lodash") exNpmWorld =
      (some (str "/c/node_modules/lodash"),
        ⟨[str "/c/node_modules/lodash"], [.metaFetch (str "R/lodash")], some (str "R")⟩) ∧
    [NetEvent.metaFetch (str "R/lodash")] ≠ ([] : List NetEvent) := by decide

/-- C9: on a tape whose single header has name `a`, size 0, and a NUL
type-flag byte, the parser yields type `other`, not `file`: `readString`
stops at the NUL byte, so the type flag reads back as the empty string and
misses the `'\0'` entry of `typeMap` (which is unreachable dead code).
The entry is otherwise parsed as the claim describes (one header block,
zero content blocks, empty content). -/
theorem parseTar_nul_typeflag_other :
    parseTar exTape = [⟨str "a", [], some 0, .other⟩] ∧
    readStr exTape 156 1 = [] ∧
    tarTypeOf ['\x00'] = .file ∧
    TarType.other ≠ TarType.file := by decide

/-- C10: the memo key is the plain concatenation `name ++ "::" ++ parent`,
so the distinct argument pairs `("a::b", "c")` and `("a", "b::c")` share
the key `a::b::c`: after the first pair resolves (to `a::b|c` under an
oracle that records its arguments), the second pair returns the memoized
`a::b|c` instead of its own resolution `a|b::c`. -/
theorem memoKey_collision :
    modResolve exCfg exDeps (str "a::b") (str "c") ⟨[], ()⟩ =
      .ok (str "a::b|c", exCollidedState) ∧
    modResolve exCfg exDeps (str "a") (str "b::c") exCollidedState =
      .ok (str "a::b|c", exCollidedState) ∧
    str "a::b" ++ str "::" ++ str "c" = str "a" ++ str "::" ++ str "b::c" ∧
    str "a::b|c" ≠ str "a|b::c" := by decide

/-- C8: dispatcher memoization.  If a call to `resolve` succeeds with
identity `r` and state `s'`, then a second call with the identical
arguments returns the identical `r` with the state unchanged — so no
resolution work (in particular no fetch, which could only happen through a
sub-resolver acting on the world) is performed again; moreover no existing
memo binding is lost by a `resolve` call, and only `clearCache` empties
the memo. -/
theorem modResolve_memo_idempotent (W : Type) (cfg : RtConfig)
    (deps : SubResolvers W) (name parent : Str) (s : DState W) (r : Str)
    (s' : DState W) (h : modResolve cfg deps name parent s = .ok (r, s')) :
    modResolve cfg deps name parent s' = .ok (r, s') ∧
    (∀ k v, s.cache.lookup k = some v → s'.cache.lookup k = some v) ∧
    (clearCache s').cache = [] := by
  simp only [modResolve] at h
  cases hc : List.lookup (name ++ str "::" ++ parent) s.cache with
  | some r0 =>
    rw [hc] at h
    simp only [Except.ok.injEq, Prod.mk.injEq] at h
    obtain ⟨rfl, rfl⟩ := h
    refine ⟨?_, fun k v hv => hv, rfl⟩
    simp only [modResolve, hc]
  | none =>
    rw [hc] at h
    cases hb : (if strStartsWith (applyImportMap cfg name) (str "node:") then
        if ¬ cfg.enableNode then .error (str "Node.js compatibility layer is disabled")
        else deps.nodeResolve (applyImportMap cfg name) s.world
      else if strStartsWith (applyImportMap cfg name) (str "http://") ||
          strStartsWith (applyImportMap cfg name) (str "https://") then
        if ¬ cfg.enableHttp then .error (str "HTTP module loading is disabled")
        else .ok (applyImportMap cfg name, s.world)
      else if strStartsWith (applyImportMap cfg name) (str "jsr:") then
        if ¬ cfg.enableJsr then .error (str "JSR module loading is disabled")
        else deps.jsrResolve (applyImportMap cfg name) parent s.world
      else if strStartsWith (applyImportMap cfg name) (str "./") ||
          strStartsWith (applyImportMap cfg name) (str "../") then
        modResolveRelative cfg deps (applyImportMap cfg name) parent s.world
      else if isAbsolutePath deps.win32 (applyImportMap cfg name) then
        match deps.tryResolve (applyPathAlias cfg (applyImportMap cfg name)) s.world with
        | (.ok _, w') => .ok (applyPathAlias cfg (applyImportMap cfg name), w')
        | (.error e, _) => .error e
      else modResolvePackage cfg deps (applyImportMap cfg name) parent s.world :
        Except Str (Str × W)) with
    | error e =>
      rw [hb] at h
      exact absurd h (by simp)
    | ok p =>
      rw [hb] at h
      obtain ⟨res, w'⟩ := p
      simp only [Except.ok.injEq, Prod.mk.injEq] at h
      obtain ⟨rfl, rfl⟩ := h
      refine ⟨?_, ?_, rfl⟩
      · simp only [modResolve, mapSet, List.lookup, beq_self_eq_true]
      · intro k v hv
        simp only [mapSet, List.lookup]
        cases hk : (k == name ++ str "::" ++ parent) with
        | true =>
          rw [eq_of_beq hk] at hv
          rw [hc] at hv
          exact absurd hv (by simp)
        | false => exact hv

/-- C8 witness for `modResolve_memo_idempotent` at a concrete input: after
resolving `("a", "p")` once from a state holding a prior memo binding
`k ↦ v`, the second identical call returns the same identity and state,
the binding `k ↦ v` is still present, and `clearCache` empties the memo. -/
theorem modResolve_memo_idempotent_witness :
    modResolve exCfg exDeps (str "a") (str "p")
        ⟨[(str "a::p", str "a|p"), (str "k", str "v")], ()⟩ =
      .ok (str "a|p", ⟨[(str "a::p", str "a|p"), (str "k", str "v")], ()⟩) ∧
    List.lookup (str "k") [(str "a::p", str "a|p"), (str "k", str "v")] =
      some (str "v") ∧
    (clearCache (⟨[(str "a::p", str "a|p"), (str "k", str "v")], ()⟩ :
      DState Unit)).cache = [] := by
  have h : modResolve exCfg exDeps (str "a") (str "p") ⟨[(str "k", str "v")], ()⟩ =
      .ok (str "a|p", ⟨[(str "a::p", str "a|p"), (str "k", str "v")], ()⟩) := by decide
  have H := modResolve_memo_idempotent Unit exCfg exDeps (str "a") (str "p") _ _ _ h
  exact ⟨H.1, H.2.1 (str "k") (str "v") (by decide), H.2.2⟩

/-- C3: `matchLatestVersion(V, R)` is `null` exactly when no element of V
satisfies R; otherwise it returns an element v of V satisfying R such that
no satisfying element of V compares strictly greater, and v is the first
among the tied maxima in input order: the filtered list splits as
`l₁ ++ v :: l₂` with everything in `l₁` strictly smaller than v. -/
theorem matchLatestVersion_correct (V : List Str) (R : Str) :
    (matchLatestVersion V R = none ↔ ∀ v ∈ V, satisfiesVersion v R = false) ∧
    (∀ v, matchLatestVersion V R = some v →
      v ∈ V ∧ satisfiesVersion v R = true ∧
      (∀ w ∈ V, satisfiesVersion w R = true → compareVersions w v ≤ 0) ∧
      ∃ l₁ l₂, matchVersion V R = l₁ ++ v :: l₂ ∧
        ∀ w ∈ l₁, compareVersions w v < 0) := by
  constructor
  · constructor
    · intro h v hv
      cases hm : matchVersion V R with
      | nil =>
        have hm' : V.filter (fun x => satisfiesVersion x R) = [] := hm
        have := List.filter_eq_nil_iff.mp hm' v hv
        simpa using this
      | cons m ms => simp [matchLatestVersion, hm] at h
    · intro h
      cases hm : matchVersion V R with
      | nil => simp [matchLatestVersion, hm]
      | cons m ms =>
        exfalso
        have hmem : m ∈ V.filter (fun x => satisfiesVersion x R) := by
          show m ∈ matchVersion V R
          rw [hm]; exact List.mem_cons_self _ _
        have h1 := List.mem_of_mem_filter hmem
        have h2 : satisfiesVersion m R = true := by simpa using List.of_mem_filter hmem
        rw [h m h1] at h2
        exact Bool.false_ne_true h2
  · intro v hv
    cases hm : matchVersion V R with
    | nil => simp [matchLatestVersion, hm] at hv
    | cons m ms =>
      simp only [matchLatestVersion, hm, Option.some.injEq] at hv
      subst hv
      have hmemreduce : latestReduce m ms ∈ matchVersion V R := by
        rw [hm]
        rcases latestReduce_mem m ms with h | h
        · rw [h]; exact List.mem_cons_self _ _
        · exact List.mem_cons_of_mem _ h
      have hmf : latestReduce m ms ∈ V.filter (fun x => satisfiesVersion x R) := hmemreduce
      refine ⟨List.mem_of_mem_filter hmf, by simpa using List.of_mem_filter hmf, ?_, ?_⟩
      · intro w hw hsat
        have hwf : w ∈ matchVersion V R :=
          List.mem_filter.mpr ⟨hw, by simp [hsat]⟩
        rw [hm] at hwf
        rcases List.mem_cons.mp hwf with rfl | hwf
        · exact (latestReduce_ge w ms).1
        · exact (latestReduce_ge m ms).2 w hwf
      · obtain ⟨l₁, l₂, he, hlt⟩ := latestReduce_first m ms
        exact ⟨l₁, l₂, he, hlt⟩

/-- C3 witness for `matchLatestVersion_correct` at a concrete input:
on `["1.0.0", "1.2.0", "1.1.0"]` with range `^1.0.0` the result `1.2.0`
is a member, satisfies the range, dominates every satisfying member, and
heads a split of the filtered list with a strictly smaller prefix. -/
theorem matchLatestVersion_correct_witness :
    (str "1.2.0") ∈ [str "1.0.0", str "1.2.0", str "1.1.0"] ∧
    satisfiesVersion (str "1.2.0") (str "^1.0.0") = true ∧
    (∀ w ∈ [str "1.0.0", str "1.2.0", str "1.1.0"],
      satisfiesVersion w (str "^1.0.0") = true →
        compareVersions w (str "1.2.0") ≤ 0) ∧
    ∃ l₁ l₂, matchVersion [str "1.0.0", str "1.2.0", str "1.1.0"] (str "^1.0.0") =
        l₁ ++ (str "1.2.0") :: l₂ ∧
      ∀ w ∈ l₁, compareVersions w (str "1.2.0") < 0 :=
  (matchLatestVersion_correct [str "1.0.0", str "1.2.0", str "1.1.0"]
    (str "^1.0.0")).2 (str "1.2.0") (by decide)

theorem http_not_node {s : Str}
    (h : (strStartsWith s (str "http://") || strStartsWith s (str "https://")) = true) :
    strStartsWith s (str "node:") = false := by
  cases s with
  | nil => simp [strStartsWith, str] at h
  | cons c cs =>
    simp only [Bool.or_eq_true] at h
    rcases h with h | h <;>
      (simp only [str, strStartsWith, Bool.and_eq_true, beq_iff_eq] at h
       simp [str, strStartsWith, h.1])

/-- C1 (amended): (1) with a session-memo miss, the dispatcher returns an
`http://`/`https://` specifier (after import-map rewriting) unchanged as
the identity — erroring when HTTP is disabled — without invoking the HTTP
Resolver at all (the world is untouched, only the memo gains the entry);
(2) `HttpResolver.resolve(url)` computes the deterministic cache path and,
when the cache file is present, records the path-to-URL mapping and
returns the cache path with no fetch; (3) on a miss it performs the
blocking fetch and fails on any status other than 200; (4) on a miss with
status 200 it persists the body under the cache path, records the mapping,
and returns the URL. -/
theorem http_resolution_amended :
    (∀ (W : Type) (cfg : RtConfig) (deps : SubResolvers W) (name parent : Str)
      (s : DState W),
      List.lookup (name ++ str "::" ++ parent) s.cache = none →
      (strStartsWith (applyImportMap cfg name) (str "http://") ||
        strStartsWith (applyImportMap cfg name) (str "https://")) = true →
      modResolve cfg deps name parent s =
        (if cfg.enableHttp then
          .ok (applyImportMap cfg name,
            ⟨mapSet s.cache (name ++ str "::" ++ parent) (applyImportMap cfg name),
              s.world⟩)
        else .error (str "HTTP module loading is disabled"))) ∧
    (∀ (cfg : RtConfig) (net : Str → Nat × Str) (s : HState) (url cp : Str),
      httpCachePath cfg url = some cp →
      (s.files.lookup cp).isSome = true →
      httpResolve cfg net s url = .ok (cp, { s with urlMap := mapSet s.urlMap cp url })) ∧
    (∀ (cfg : RtConfig) (net : Str → Nat × Str) (s : HState) (url cp : Str)
      (status : Nat) (body : Str),
      httpCachePath cfg url = some cp →
      (s.files.lookup cp).isSome = false →
      net url = (status, body) → status ≠ 200 →
      httpResolve cfg net s url =
        .error (str "Failed to resolve HTTP module " ++ url ++ str ": " ++
          str "Failed to fetch " ++ url ++ str ": HTTP " ++ intToStr status)) ∧
    (∀ (cfg : RtConfig) (net : Str → Nat × Str) (s : HState) (url cp : Str)
      (body : Str),
      httpCachePath cfg url = some cp →
      (s.files.lookup cp).isSome = false →
      net url = (200, body) →
      httpResolve cfg net s url = .ok (url,
        ⟨mapSet s.files cp body, mapSet s.urlMap cp url, s.fetches ++ [url]⟩)) := by
  refine ⟨?_, ?_, ?_, ?_⟩
  · intro W cfg deps name parent s hcache hhttp
    have hnode := http_not_node hhttp
    simp only [modResolve, hcache, hnode, hhttp]
    cases hEn : cfg.enableHttp <;> simp [hEn]
  · intro cfg net s url cp hcp hfile
    simp only [httpResolve, hcp, hfile]
    rfl
  · intro cfg net s url cp status body hcp hfile hnet hstatus
    simp only [httpResolve, hcp, hfile, hnet]
    simp [hstatus]
  · intro cfg net s url cp body hcp hfile hnet
    simp only [httpResolve, hcp, hfile, hnet]
    rfl

/-- C1 witness for `http_resolution_amended` at concrete inputs: the
dispatcher returns `http://h/a.ts` unchanged with only a memo insert; a
cache hit yields the cache path without a fetch; a 500 status on a miss
yields the wrapped fetch error; a 200 status on a miss persists the body
and yields the URL. -/
theorem http_resolution_amended_witness :
    modResolve exCfg exDeps exUrl (str "par") ⟨[], ()⟩ =
      .ok (exUrl, ⟨[(exUrl ++ str "::" ++ str "par", exUrl)], ()⟩) ∧
    httpResolve exCfg (fun _ => (500, [])) exHttpState exUrl =
      .ok (exHttpCachePath, { exHttpState with
        urlMap := mapSet [] exHttpCachePath exUrl }) ∧
    httpResolve exCfg (fun _ => (500, [])) ⟨[], [], []⟩ exUrl =
      .error (str "Failed to resolve HTTP module " ++ exUrl ++ str ": " ++
        str "Failed to fetch " ++ exUrl ++ str ": HTTP " ++ intToStr 500) ∧
    httpResolve exCfg (fun _ => (200, str "body")) ⟨[], [], []⟩ exUrl =
      .ok (exUrl, ⟨mapSet [] exHttpCachePath (str "body"),
        mapSet [] exHttpCachePath exUrl, [exUrl]⟩) := by
  obtain ⟨h1, h2, h3, h4⟩ := http_resolution_amended
  refine ⟨?_, ?_, ?_, ?_⟩
  · have := h1 Unit exCfg exDeps exUrl (str "par") ⟨[], ()⟩ (by decide) (by decide)
    simpa using this
  · exact h2 exCfg (fun _ => (500, [])) exHttpState exUrl exHttpCachePath
      (by decide) (by decide)
  · exact h3 exCfg (fun _ => (500, [])) ⟨[], [], []⟩ exUrl exHttpCachePath 500 []
      (by decide) (by decide) rfl (by decide)
  · have := h4 exCfg (fun _ => (200, str "body")) ⟨[], [], []⟩ exUrl exHttpCachePath
      (str "body") (by decide) (by decide) rfl
    simpa using this

/-- C2 (amended): the file-path resolution algorithm is as claimed — an
empty, `/`, or `.` subpath uses `exports['.']` or `exports['./mod.ts']`
with a leading `./` stripped; any other subpath is normalized to
package-root-absolute form and the first match among (a) the export-map
entry at `'.' + normalizedPath` (its value normalized), (b) a manifest key
equal to the normalized path, (c) the path plus each extension
`.ts/.tsx/.js/.jsx/.mjs`, (d) `<path>/index<ext>`, wins, else the
"cannot find" error naming package and version (`jsrResolveFileClaim`
spells exactly this out).  The example must key the manifest by the
package-root-absolute path: with manifest `{"/mod.ts": ...}` and exports
`{".": "./mod.ts"}`, subpath `""` yields `mod.ts` and subpath `/mod.ts`
yields the manifest match `/mod.ts`. -/
theorem jsrResolveFile_amended :
    (∀ (scope name version path : Str) (meta : JsrVersionMeta),
      jsrResolveFile scope name version path meta =
        jsrResolveFileClaim scope name version path meta) ∧
    jsrResolveFile (str "x") (str "y") (str "1.0.0") (str "") exMetaAbs =
      .ok (str "mod.ts") ∧
    jsrResolveFile (str "x") (str "y") (str "1.0.0") (str "/mod.ts") exMetaAbs =
      .ok (str "/mod.ts") := by
  refine ⟨?_, by decide, by decide⟩
  intro scope name version path meta
  simp only [jsrResolveFile, jsrResolveFileClaim]
  split
  · rfl
  · simp only [List.cons_append, List.nil_append, List.findSome?_cons]
    cases hE : (match meta.exports with
        | some ex => lookupTruthy ex ('.' :: normalizePath
            (if strStartsWith path (str "/") then path else '/' :: path))
        | none => none) with
    | some v => simp
    | none =>
      simp only [Option.map_none', id]
      cases hM : meta.manifest.contains (normalizePath
          (if strStartsWith path (str "/") then path else '/' :: path)) with
      | true => simp [hM]
      | false =>
        simp only [hM, Bool.false_eq_true, if_false, List.findSome?_append,
          List.findSome?_map, Function.comp_def, id_eq]
        cases h1 : jsrExtensions.findSome? (fun ext =>
            if meta.manifest.contains (normalizePath
              (if strStartsWith path (str "/") then path else '/' :: path) ++ ext) then
              some (normalizePath
                (if strStartsWith path (str "/") then path else '/' :: path) ++ ext)
            else none) with
        | some p => simp only [h1, Option.or]
        | none => simp only [h1, Option.or]

/-- C4 (amended): the import-map rewrite returns the exact-match entry's
value when the specifier is a key with a truthy (non-empty) value;
otherwise, among entries whose key ends in `/` and is a prefix of the
specifier, the value of the *first such entry in object-iteration
(insertion) order* — not the longest key — is substituted for the prefix;
with no matching entry the specifier is unchanged.  The single-entry map
`{"@/": "./src/"}` rewrites `@/utils/x.ts` to `./src/utils/x.ts`. -/
theorem applyImportMap_amended :
    (∀ (cfg : RtConfig) (imap : List (Str × Str)) (name v : Str),
      cfg.importMap = some imap → imap.lookup name = some v → v ≠ [] →
      applyImportMap cfg name = v) ∧
    (∀ (cfg : RtConfig) (imap : List (Str × Str)) (name : Str)
      (l₁ : List (Str × Str)) (k v : Str) (l₂ : List (Str × Str)),
      cfg.importMap = some imap →
      (∀ w, imap.lookup name = some w → w = []) →
      imap = l₁ ++ (k, v) :: l₂ →
      (strEndsWith k (str "/") && strStartsWith name k) = true →
      (∀ kv ∈ l₁, (strEndsWith kv.1 (str "/") && strStartsWith name kv.1) = false) →
      applyImportMap cfg name = v ++ name.drop k.length) ∧
    (∀ (cfg : RtConfig) (imap : List (Str × Str)) (name : Str),
      cfg.importMap = some imap →
      (∀ w, imap.lookup name = some w → w = []) →
      (∀ kv ∈ imap, (strEndsWith kv.1 (str "/") && strStartsWith name kv.1) = false) →
      applyImportMap cfg name = name) ∧
    applyImportMap ⟨str "/c", true, true, true, true, none, none,
      some [(str "@/", str "./src/")]⟩ (str "@/utils/x.ts") = str "./src/utils/x.ts" := by
  have hexact : ∀ (imap : List (Str × Str)) (name : Str),
      (∀ w, imap.lookup name = some w → w = []) →
      (match imap.lookup name with
        | some v => if v ≠ [] then some v else none
        | none => (none : Option Str)) = none := by
    intro imap name h
    cases hlk : imap.lookup name with
    | none => rfl
    | some w => simp [h w hlk]
  refine ⟨?_, ?_, ?_, by decide⟩
  · intro cfg imap name v hmap hlk hv
    simp only [applyImportMap, hmap, hlk, hv]
    simp [hv]
  · intro cfg imap name l₁ k v l₂ hmap hnoexact hsplit hkv hpre
    subst hsplit
    have hfind : List.find?
        (fun kv => strEndsWith kv.1 (str "/") && strStartsWith name kv.1)
        (l₁ ++ (k, v) :: l₂) = some (k, v) := by
      rw [List.find?_append,
        List.find?_eq_none.mpr (fun kv hkv' => by simp [hpre kv hkv']),
        List.find?_cons_of_pos _ (by simpa using hkv)]
      rfl
    simp only [applyImportMap, hmap, hfind]
    cases hlk : List.lookup name (l₁ ++ (k, v) :: l₂) with
    | none => simp [hlk, hfind]
    | some w =>
      have hw := hnoexact w hlk
      subst hw
      simp [hlk, hfind]
  · intro cfg imap name hmap hnoexact hnone
    have hfind : List.find?
        (fun kv => strEndsWith kv.1 (str "/") && strStartsWith name kv.1) imap = none :=
      List.find?_eq_none.mpr (fun kv hkv' => by simp [hnone kv hkv'])
    simp only [applyImportMap, hmap, hfind]
    cases hlk : List.lookup name imap with
    | none => simp [hlk, hfind]
    | some w =>
      have hw := hnoexact w hlk
      subst hw
      simp [hlk, hfind]

/-- C4 witness for `applyImportMap_amended` at concrete inputs: an exact
match wins; with two matching prefix keys the first entry in insertion
order wins (the map `{"@/": "./s1/", "@/utils/": "./u/"}` sends
`@/utils/x.ts` to `./s1/utils/x.ts`); a map with no matching entry leaves
the name unchanged. -/
theorem applyImportMap_amended_witness :
    applyImportMap ⟨str "/c", true, true, true, true, none, none,
        some [(str "ex", str "v")]⟩ (str "ex") = str "v" ∧
    applyImportMap ⟨str "/c", true, true, true, true, none, none,
        some [(str "@/", str "./s1/"), (str "@/utils/", str "./u/")]⟩
      (str "@/utils/x.ts") = str "./s1/" ++ (str "@/utils/x.ts").drop (str "@/").length ∧
    applyImportMap ⟨str "/c", true, true, true, true, none, none,
        some [(str "zz/", str "./z/")]⟩ (str "name") = str "name" := by
  obtain ⟨h1, h2, h3, _⟩ := applyImportMap_amended
  refine ⟨?_, ?_, ?_⟩
  · exact h1 _ [(str "ex", str "v")] (str "ex") (str "v") rfl (by decide) (by decide)
  · exact h2 _ [(str "@/", str "./s1/"), (str "@/utils/", str "./u/")]
      (str "@/utils/x.ts") [] (str "@/") (str "./s1/") [(str "@/utils/", str "./u/")]
      rfl (by decide) rfl (by decide) (by decide)
  · exact h3 _ [(str "zz/", str "./z/")] (str "name") rfl (by decide) (by decide)

/-- C5 (amended): when the export value looked up for a subpath is an
object (conditional exports), only its `default` key is consulted: the
result joins the package directory with the `default` value when that
value is present and truthy (whatever its type), and is `null` otherwise —
`import` and `require` are never consulted, so any two condition objects
with the same `default` entry resolve identically. -/
theorem npmExports_default_only :
    (∀ (packageDir : Str) (entries : List (Str × ExportTarget)) (path : Str)
      (cvs : List (Str × CondVal)),
      entries.lookup path = some (.cond cvs) →
      checkPath packageDir entries path =
        (match cvs.lookup (str "default") with
         | some cv =>
           if condTruthy cv then some (joinPaths [packageDir, condValStr cv]) else none
         | none => none)) ∧
    (∀ (packageDir path : Str) (cvs cvs' : List (Str × CondVal)),
      cvs.lookup (str "default") = cvs'.lookup (str "default") →
      checkPath packageDir [(path, .cond cvs)] path =
        checkPath packageDir [(path, .cond cvs')] path) := by
  constructor
  · intro packageDir entries path cvs h
    simp only [checkPath, h]
  · intro packageDir path cvs cvs' h
    simp only [checkPath, List.lookup, beq_self_eq_true, h]

/-- C5 witness for `npmExports_default_only` at concrete inputs: with
conditions `{"import": "./i.js", "default": "./d.js"}` the result is the
joined `default` target `./d.js` (the earlier `import` entry is ignored),
and replacing `import` by `require` does not change the result. -/
theorem npmExports_default_only_witness :
    checkPath (str "/p")
        [(str ".", .cond [(str "import", .str (str "./i.js")),
          (str "default", .str (str "./d.js"))])] (str ".") =
      some (joinPaths [str "/p", str "./d.js"]) ∧
    checkPath (str "/p")
        [(str ".", .cond [(str "import", .str (str "./i.js")),
          (str "default", .str (str "./d.js"))])] (str ".") =
      checkPath (str "/p")
        [(str ".", .cond [(str "require", .str (str "./r.js")),
          (str "default", .str (str "./d.js"))])] (str ".") := by
  constructor
  · rw [(npmExports_default_only).1 (str "/p") _ (str ".")
      [(str "import", .str (str "./i.js")), (str "default", .str (str "./d.js"))]
      (by decide)]
    decide
  · exact (npmExports_default_only).2 (str "/p") (str ".")
      [(str "import", .str (str "./i.js")), (str "default", .str (str "./d.js"))]
      [(str "require", .str (str "./r.js")), (str "default", .str (str "./d.js"))]
      (by decide)

/-- C6 (amended): when the target directory under the global cache already
exists, auto-install skips the tarball download and the extraction and
uses the existing directory — but the registry-metadata fetch is still
performed (the directory check sits after the metadata fetch): the run
ends with exactly the metadata-fetch event appended and the file system
unchanged. -/
theorem autoInstall_skip_amended (cfg : RtConfig) (net : NpmNet) (pn : Str)
    (w : NpmWorld) (registry : Str) (w₁ : NpmWorld) (metadata : NpmMeta)
    (version tarballUrl : Str)
    (hcfg : getNpmConfig net w = (registry, w₁))
    (hmeta : net.metaResp (registry ++ str "/" ++
      strReplaceFirst pn (str "/") (str "%2F")) = .ok metadata)
    (hlatest : metadata.latest = some version) (hver : version ≠ [])
    (htar : metadata.versions.lookup version = some tarballUrl)
    (hdir : w₁.files.contains
      (joinPaths [joinPaths [cfg.cacheDir, str "node_modules"], pn]) = true) :
    autoInstallPackage cfg net pn w =
      (some (joinPaths [joinPaths [cfg.cacheDir, str "node_modules"], pn]),
       { w₁ with events := w₁.events ++ [.metaFetch (registry ++ str "/" ++
          strReplaceFirst pn (str "/") (str "%2F"))] }) := by
  simp only [autoInstallPackage, hcfg, hmeta, hlatest, htar]
  rw [if_neg hver]
  have hdir' : joinPaths [joinPaths [cfg.cacheDir, str "node_modules"], pn] ∈ w₁.files := by
    simpa using hdir
  simp [hdir']

/-- C6 witness for `autoInstall_skip_amended` at concrete inputs: with
`lodash` already present under `/c/node_modules`, the run returns the
existing directory and records only the metadata fetch. -/
theorem autoInstall_skip_amended_witness :
    autoInstallPackage exCfg exNpmNet (str "lodash") exNpmWorld =
      (some (joinPaths [joinPaths [exCfg.cacheDir, str "node_modules"], str "lodash"]),
       { exNpmWorld with events := exNpmWorld.events ++
          [.metaFetch (str "R" ++ str "/" ++
            strReplaceFirst (str "lodash") (str "/") (str "%2F"))] }) :=
  autoInstall_skip_amended exCfg exNpmNet (str "lodash") exNpmWorld (str "R")
    exNpmWorld ⟨some (str "1.0.0"), [(str "1.0.0", str "T")]⟩ (str "1.0.0") (str "T")
    (by decide) (by decide) (by decide) (by decide) (by decide) (by decide)

/-- C7: every failure inside `autoInstallPackage` is caught and turned
into `none`, and `NpmResolver.resolve` maps that to the fixed
`Package "<name>" not found and auto-install failed` error, which depends
only on the package name: whether the package is absent from the registry
(metadata fetch fails) or its installation fails (tarball/extract fails),
the failure result of `resolve` is identical. -/
theorem npmResolve_uniform_not_found (cfg : RtConfig) (fs : NpmFs)
    (net₁ net₂ : NpmNet) (name parent : Str) (w₁ w₂ : NpmWorld) (pn sub : Str)
    (hparse : parsePackageName name = .ok (pn, sub))
    (hfind : findPackageDir fs (joinPaths [cfg.cacheDir, str "node_modules"]) pn
      parent = none)
    (hauto₁ : (autoInstallPackage cfg net₁ pn w₁).1 = none)
    (hauto₂ : (autoInstallPackage cfg net₂ pn w₂).1 = none) :
    (npmResolve cfg fs net₁ name parent w₁).1 =
      .error (str "Package \x22" ++ pn ++
        str "\x22 not found and auto-install failed") ∧
    (npmResolve cfg fs net₁ name parent w₁).1 =
      (npmResolve cfg fs net₂ name parent w₂).1 := by
  have key : ∀ (net : NpmNet) (w : NpmWorld),
      (autoInstallPackage cfg net pn w).1 = none →
      (npmResolve cfg fs net name parent w).1 =
        .error (str "Package \x22" ++ pn ++
          str "\x22 not found and auto-install failed") := by
    intro net w hauto
    simp only [npmResolve, hparse, hfind]
    cases hA : autoInstallPackage cfg net pn w with
    | mk o w' =>
      rw [hA] at hauto
      simp only at hauto
      subst hauto
      simp
  refine ⟨key net₁ w₁ hauto₁, ?_⟩
  rw [key net₁ w₁ hauto₁, key net₂ w₂ hauto₂]

/-- C7 witness for `npmResolve_uniform_not_found` at concrete inputs: an
absent package (registry answers 404) and a failing installation (tarball
download fails) both yield the identical
`Package "leftpad" not found and auto-install failed` error. -/
theorem npmResolve_uniform_not_found_witness :
    (npmResolve exCfg
        ⟨fun _ => false, fun _ => false, fun _ => false, str "/cwd", false,
          fun _ => none⟩
        ⟨none, none, fun _ => .error (str "HTTP 404"),
          fun _ => .error (str "down"), fun _ => .error (str "bad gzip")⟩
        (str "leftpad") (str "") ⟨[], [], some (str "R")⟩).1 =
      .error (str "Package \x22" ++ str "leftpad" ++
        str "\x22 not found and auto-install failed") ∧
    (npmResolve exCfg
        ⟨fun _ => false, fun _ => false, fun _ => false, str "/cwd", false,
          fun _ => none⟩
        ⟨none, none, fun _ => .error (str "HTTP 404"),
          fun _ => .error (str "down"), fun _ => .error (str "bad gzip")⟩
        (str "leftpad") (str "") ⟨[], [], some (str "R")⟩).1 =
      (npmResolve exCfg
        ⟨fun _ => false, fun _ => false, fun _ => false, str "/cwd", false,
          fun _ => none⟩
        exNpmNet (str "leftpad") (str "") ⟨[], [], some (str "R")⟩).1 :=
  npmResolve_uniform_not_found exCfg
    ⟨fun _ => false, fun _ => false, fun _ => false, str "/cwd", false, fun _ => none⟩
    ⟨none, none, fun _ => .error (str "HTTP 404"),
      fun _ => .error (str "down"), fun _ => .error (str "bad gzip")⟩
    exNpmNet (str "leftpad") (str "") ⟨[], [], some (str "R")⟩
    ⟨[], [], some (str "R")⟩ (str "leftpad") (str "")
    (by decide) (by decide) (by decide) (by decide)

end Cts
